import Mathlib

/-!
Verification of the CSV record pipeline (`csv_processor.py`).

The embedding models the program at the level of parsed CSV content: a file
is a list of rows, each row a list of cells (the `csv` module's
quoting/unquoting layer is abstracted away).  Python `int()` / `float()`
parsing is modelled over exact decimal rationals (`Rat`); `str(float)` is
modelled as an exact scientific-notation serialization.  Exceptions are
modelled as values (`raised` field of `RowResult`); the filesystem is an
explicit finite map from paths to nodes.
-/

namespace CSVProc

/-! ## Characters and Python string helpers -/

/-- Whitespace characters stripped by Python `str.strip()` (ASCII model). -/
def isPySpace (c : Char) : Bool :=
  c = ' ' || c = '\t' || c = '\n' || c = '\r' || c = '\x0b' || c = '\x0c'

/-- The ten decimal digit characters. -/
def digitChars : List Char := ['0', '1', '2', '3', '4', '5', '6', '7', '8', '9']

/-- Whether a character is a decimal digit. -/
def isDigitCh (c : Char) : Bool := digitChars.contains c

/-- Numeric value of a digit character. -/
def digitVal (c : Char) : Nat := c.toNat - 48

/-- The digit character for a value below ten. -/
def digitCh (d : Nat) : Char :=
  match d with
  | 0 => '0'
  | 1 => '1'
  | 2 => '2'
  | 3 => '3'
  | 4 => '4'
  | 5 => '5'
  | 6 => '6'
  | 7 => '7'
  | 8 => '8'
  | _ => '9'

/-- Python `str.strip()` on a character list: drop whitespace from both ends. -/
def pyStripList (l : List Char) : List Char :=
  ((l.dropWhile isPySpace).reverse.dropWhile isPySpace).reverse

/-- Python `str.strip()` on strings, as used by `_process_row`. -/
def pyStrip (s : String) : String := ⟨pyStripList s.data⟩

/-! ## Numeric parsing (model of Python `int()` and `float()`) -/

/-- Read a non-empty all-digit character list as a natural number. -/
def readNatDigits (l : List Char) : Option Nat :=
  if l.isEmpty then none
  else if l.all isDigitCh then some (l.foldl (fun a c => a * 10 + digitVal c) 0)
  else none

/-- Model of Python `int(s)`: strip whitespace, optional sign, base-10 digits. -/
def pyIntParseL (l : List Char) : Option Int :=
  match pyStripList l with
  | [] => none
  | c :: r =>
    if c = '+' then (readNatDigits r).map (fun n : Nat => (n : Int))
    else if c = '-' then (readNatDigits r).map (fun n : Nat => -(n : Int))
    else (readNatDigits (c :: r)).map (fun n : Nat => (n : Int))

/-- Model of Python `int()` on strings. -/
def pyIntParse (s : String) : Option Int := pyIntParseL s.data

/-- Split a character list at the first character satisfying `p`. -/
def breakWhen (p : Char → Bool) : List Char → Option (List Char × List Char)
  | [] => none
  | x :: xs =>
    if p x then some ([], xs)
    else (breakWhen p xs).map (fun q => (x :: q.1, q.2))

/-- Exponent marker characters of a float literal. -/
def isExpCh (c : Char) : Bool := c = 'e' || c = 'E'

/-- Read the mantissa of a float literal: digits with an optional decimal
point; returns the digits' value and the number of fractional digits. -/
def readMantissa (l : List Char) : Option (Nat × Nat) :=
  match breakWhen (fun c => c = '.') l with
  | none => (readNatDigits l).map (fun n => (n, 0))
  | some (ip, fp) =>
    if ip.isEmpty && fp.isEmpty then none
    else if (ip ++ fp).all isDigitCh then
      some ((ip ++ fp).foldl (fun a c => a * 10 + digitVal c) 0, fp.length)
    else none

/-- Read the (optionally signed) exponent of a float literal. -/
def readExp (l : List Char) : Option Int :=
  match l with
  | [] => none
  | c :: r =>
    if c = '+' then (readNatDigits r).map (fun n : Nat => (n : Int))
    else if c = '-' then (readNatDigits r).map (fun n : Nat => -(n : Int))
    else (readNatDigits (c :: r)).map (fun n : Nat => (n : Int))

/-- Exact rational value of a parsed float literal
`sign mantissa / 10 ^ fracLen * 10 ^ exp`. -/
def decValue (neg : Bool) (mant fracLen : Nat) (e : Int) : Rat :=
  let b : Rat := (mant : Rat) / (10 : Rat) ^ fracLen
  let v := if 0 ≤ e then b * (10 : Rat) ^ e.toNat else b / (10 : Rat) ^ (-e).toNat
  if neg then -v else v

/-- Value of a float literal after the sign: mantissa and optional exponent. -/
def pyFloatCore (neg : Bool) (t : List Char) : Option Rat :=
  match breakWhen isExpCh t with
  | none => (readMantissa t).map (fun m => decValue neg m.1 m.2 0)
  | some (mant, ex) =>
    match readMantissa mant, readExp ex with
    | some m, some e => some (decValue neg m.1 m.2 e)
    | _, _ => none

/-- Model of Python `float(s)` over exact decimal rationals: strip
whitespace, optional sign, mantissa, optional exponent ("nan"/"inf" and
overflow are outside the model). -/
def pyFloatParseL (l : List Char) : Option Rat :=
  match pyStripList l with
  | [] => none
  | c :: r =>
    if c = '+' then pyFloatCore false r
    else if c = '-' then pyFloatCore true r
    else pyFloatCore false (c :: r)

/-- Model of Python `float()` on strings. -/
def pyFloatParse (s : String) : Option Rat := pyFloatParseL s.data

/-! ## Numeric serialization (model of Python `str(int)` / `str(float)`) -/

/-- Base-10 digits of a natural number, little-endian, with explicit fuel
(so that the definition evaluates by structural recursion). -/
def natDigitsFuel : Nat → Nat → List Nat
  | 0, _ => []
  | fuel + 1, n => if n = 0 then [] else n % 10 :: natDigitsFuel fuel (n / 10)

/-- Decimal digit characters of a natural number, most significant first. -/
def natToDigitChars (n : Nat) : List Char :=
  if n = 0 then ['0'] else ((natDigitsFuel n n).map digitCh).reverse

/-- Model of Python `str(int)`. -/
def intToChars (i : Int) : List Char :=
  (if i < 0 then ['-'] else []) ++ natToDigitChars i.natAbs

/-- String form of an integer as written to the output file. -/
def intToStr (i : Int) : String := ⟨intToChars i⟩

/-- Model of Python `str(float)`: an exact scientific-notation spelling of
the (decimal) rational value, `digits e- denominator-exponent`. -/
def floatToChars (v : Rat) : List Char :=
  (if v.num < 0 then ['-'] else []) ++
    natToDigitChars (v.num.natAbs * (10 ^ v.den / v.den)) ++
      'e' :: '-' :: natToDigitChars v.den

/-- String form of a float value as written to the output file. -/
def floatToStr (v : Rat) : String := ⟨floatToChars v⟩

/-! ## Raw records (model of the `csv.DictReader` row dictionary)

A raw record maps column names to cell values; a value of `none` models
Python `None` (the `DictReader` `restval` filled in for a short row). -/

/-- A raw record: association list from column name to optional cell. -/
def Dict : Type := List (String × Option String)

/-- Dictionary lookup (`field in row` / `row[field]`). -/
def lookupD : Dict → String → Option (Option String)
  | [], _ => none
  | (k, v) :: d, k' => if k' = k then some v else lookupD d k'

/-- Dictionary update, replacing an existing binding (Python `dict` assignment). -/
def dictUpsert (k : String) (v : Option String) : Dict → Dict
  | [] => [(k, v)]
  | (k', v') :: d => if k' = k then (k, v) :: d else (k', v') :: dictUpsert k v d

/-- Pair fieldnames with row cells; fieldnames beyond the row's length get
`none` (the `DictReader` `restval=None`); extra cells are dropped (they go
under the non-string `restkey` in Python and are never consulted). -/
def pairUp : List String → List String → List (String × Option String)
  | [], _ => []
  | f :: fs, [] => (f, none) :: pairUp fs []
  | f :: fs, c :: cs => (f, some c) :: pairUp fs cs

/-- Build the `DictReader` row dictionary from the header and the row cells. -/
def buildDict (fns : List String) (cells : List String) : Dict :=
  (pairUp fns cells).foldl (fun d kv => dictUpsert kv.1 kv.2 d) []

/-! ## The row transform (`_process_row`) -/

/-- The typed record produced for an accepted row. -/
structure TypedRecord where
  id : Int
  name : String
  value : Rat
deriving DecidableEq, Repr

/-- Message of the `AttributeError` raised by `None.strip()`. -/
def noneStripMsg : String := "\x27NoneType\x27 object has no attribute \x27strip\x27"

/-- The diagnostic recorded for a missing or blank required field. -/
def missingFieldMsg (rowNum : Nat) (f : String) : String :=
  "Row " ++ toString rowNum ++ ": Missing required field \x27" ++ f ++ "\x27"

/-- The diagnostic recorded for a failed conversion. -/
def convErrMsg (rowNum : Nat) (detail : String) : String :=
  "Row " ++ toString rowNum ++ ": Data conversion error - " ++ detail

/-- Detail text of the `ValueError` from `int()`. -/
def intErrDetail (s : String) : String :=
  "invalid literal for int() with base 10: \x27" ++ s ++ "\x27"

/-- Detail text of the `ValueError` from `float()`. -/
def floatErrDetail (s : String) : String :=
  "could not convert string to float: \x27" ++ s ++ "\x27"

/-- The diagnostic recorded for a negative value. -/
def negValueMsg (rowNum : Nat) : String :=
  "Row " ++ toString rowNum ++ ": Negative value not allowed"

/-- Outcome of one step of the required-field check: a recorded diagnostic,
or an exception raised out of `_process_row`. -/
inductive FieldIssue
  | missing (diag : String)
  | raise (msg : String)
deriving DecidableEq, Repr

/-- Check one required field: absent or blank yields the missing-field
diagnostic; a `None` value raises (Python evaluates `None.strip()`). -/
def getReq (d : Dict) (rowNum : Nat) (f : String) : FieldIssue ⊕ String :=
  match lookupD d f with
  | none => Sum.inl (FieldIssue.missing (missingFieldMsg rowNum f))
  | some none => Sum.inl (FieldIssue.raise noneStripMsg)
  | some (some s) =>
    if pyStrip s = "" then Sum.inl (FieldIssue.missing (missingFieldMsg rowNum f))
    else Sum.inr s

/-- The required-field loop of `_process_row`, short-circuiting at the first
failed field, in the order `id`, `name`, `value`. -/
def requiredStrings (d : Dict) (rowNum : Nat) : FieldIssue ⊕ (String × String × String) :=
  match getReq d rowNum "id" with
  | Sum.inl iss => Sum.inl iss
  | Sum.inr sid =>
    match getReq d rowNum "name" with
    | Sum.inl iss => Sum.inl iss
    | Sum.inr sname =>
      match getReq d rowNum "value" with
      | Sum.inl iss => Sum.inl iss
      | Sum.inr sval => Sum.inr (sid, sname, sval)

/-- Result of `_process_row`: the returned record (or `none`), an exception
propagating out of the call (`raised`), and the diagnostics the call itself
appended to `self.errors`. -/
structure RowResult where
  record : Option TypedRecord
  raised : Option String
  diags : List String
deriving DecidableEq, Repr

/-- The conversion stage of `_process_row`: `int(row[\x27id\x27])`,
`row[\x27name\x27].strip()`, `float(row[\x27value\x27])` in source order,
then the non-negativity rule. -/
def processConv (sid sname sval : String) (rowNum : Nat) : RowResult :=
  match pyIntParse sid with
  | none => ⟨none, none, [convErrMsg rowNum (intErrDetail sid)]⟩
  | some i =>
    match pyFloatParse sval with
    | none => ⟨none, none, [convErrMsg rowNum (floatErrDetail sval)]⟩
    | some v =>
      if v < 0 then ⟨none, none, [negValueMsg rowNum]⟩
      else ⟨some ⟨i, pyStrip sname, v⟩, none, []⟩

/-- Model of `_process_row`: required-field check, then conversion. -/
def processRow (d : Dict) (rowNum : Nat) : RowResult :=
  match requiredStrings d rowNum with
  | Sum.inl (FieldIssue.missing diag) => ⟨none, none, [diag]⟩
  | Sum.inl (FieldIssue.raise msg) => ⟨none, some msg, []⟩
  | Sum.inr (sid, sname, sval) => processConv sid sname sval rowNum

/-! ## Pipeline state and filesystem -/

/-- The `CSVProcessor` instance state. -/
structure CSVProcessor where
  input_file : String
  output_file : String
  processed_rows : Nat
  errors : List String
deriving DecidableEq, Repr

/-- The constructor `CSVProcessor(input_file, output_file)`. -/
def CSVProcessor.init (inp out : String) : CSVProcessor := ⟨inp, out, 0, []⟩

/-- A filesystem node: a readable regular file holding parsed CSV rows, a
regular file whose open fails (e.g. permissions), or a non-file entry. -/
inductive FSNode
  | file (rows : List (List String))
  | unreadable
  | other
deriving DecidableEq, Repr

/-- A filesystem: an association of paths to nodes. -/
structure FS where
  entries : List (String × FSNode)
deriving DecidableEq, Repr

/-- Node at a path, if any. -/
def FS.lookup (fs : FS) (p : String) : Option FSNode :=
  fs.entries.lookup p

/-- Model of `Path.exists()`. -/
def FS.pathExists (fs : FS) (p : String) : Bool := (fs.lookup p).isSome

/-- Model of `Path.is_file()`. -/
def FS.isFile (fs : FS) (p : String) : Bool :=
  match fs.lookup p with
  | some (FSNode.file _) => true
  | some FSNode.unreadable => true
  | _ => false

/-- Model of opening and reading the file: `none` when the open raises. -/
def FS.read (fs : FS) (p : String) : Option (List (List String)) :=
  match fs.lookup p with
  | some (FSNode.file rows) => some rows
  | _ => none

/-- Model of `validate_input`: checks existence and file-kind, appending a
diagnostic to `self.errors` on each failure path. -/
def validate_input (fs : FS) (p : CSVProcessor) : Bool × CSVProcessor :=
  if !(fs.pathExists p.input_file) then
    (false, { p with errors := p.errors ++ ["Input file not found: " ++ p.input_file] })
  else if !(fs.isFile p.input_file) then
    (false, { p with errors := p.errors ++ ["Input path is not a file: " ++ p.input_file] })
  else (true, p)

/-! ## The pipeline (`process_csv`) -/

/-- Header row of the file, when present (`reader.fieldnames` truthiness:
`None` for an empty file, `[]` for a blank first line are both "no headers"). -/
def fieldnamesOf : List (List String) → Option (List String)
  | [] => none
  | h :: _ => if h.isEmpty then none else some h

/-- The data rows the `DictReader` yields: everything after the header,
blank rows skipped. -/
def dataRowsOf (rows : List (List String)) : List (List String) :=
  (rows.drop 1).filter (fun r => !r.isEmpty)

/-- The diagnostic the per-row `except` handler appends when `_process_row`
raised. -/
def rowExnDiags (rowNum : Nat) : Option String → List String
  | some m => ["Row " ++ toString rowNum ++ ": " ++ m]
  | none => []

/-- All diagnostics the run records for one row. -/
def rowDiagnostics (res : RowResult) (rowNum : Nat) : List String :=
  res.diags ++ rowExnDiags rowNum res.raised

/-- The per-row loop of `process_csv`: each row is transformed; accepted
records are collected and counted; diagnostics accumulate; an exception
from `_process_row` is caught and processing continues. -/
def processRows (fns : List String) :
    List (List String) → Nat → CSVProcessor → List TypedRecord →
      CSVProcessor × List TypedRecord
  | [], _, p, acc => (p, acc)
  | cells :: rest, rowNum, p, acc =>
    match (processRow (buildDict fns cells) rowNum).record with
    | some r =>
      processRows fns rest (rowNum + 1)
        { p with
            errors := p.errors ++
              rowDiagnostics (processRow (buildDict fns cells) rowNum) rowNum,
            processed_rows := p.processed_rows + 1 }
        (acc ++ [r])
    | none =>
      processRows fns rest (rowNum + 1)
        { p with
            errors := p.errors ++
              rowDiagnostics (processRow (buildDict fns cells) rowNum) rowNum }
        acc

/-- Cell written for a record under a column name (`DictWriter` with
`restval` of the empty string for pass-through columns). -/
def writeCell (r : TypedRecord) (f : String) : String :=
  if f = "id" then intToStr r.id
  else if f = "name" then r.name
  else if f = "value" then floatToStr r.value
  else ""

/-- Row written for one accepted record (`DictWriter.writerows`). -/
def writeRow (fns : List String) (r : TypedRecord) : List String :=
  fns.map (writeCell r)

/-- Destination file content: header then one row per accepted record. -/
def writeOutput (fns : List String) (recs : List TypedRecord) : List (List String) :=
  fns :: recs.map (writeRow fns)

/-- Message of the exception the outer handler records when the open/read
raises (the `unreadable` node, modelled as a permission error). -/
def readErrMsg (path : String) : String :=
  "File processing error: [Errno 13] Permission denied: \x27" ++ path ++ "\x27"

/-- Outcome of a run: the boolean returned, the final instance state, the
accepted records, and the destination content when the write happened. -/
structure RunOutcome where
  ret : Bool
  state : CSVProcessor
  accepted : List TypedRecord
  written : Option (List (List String))
deriving DecidableEq, Repr

/-- End of the loop: write the accepted records, or fail with
"No valid rows to process". -/
def runLoop (fns : List String) (dataRows : List (List String)) (p : CSVProcessor) :
    RunOutcome :=
  if (processRows fns dataRows 2 p []).2.isEmpty then
    ⟨false,
      { (processRows fns dataRows 2 p []).1 with
          errors := (processRows fns dataRows 2 p []).1.errors ++ ["No valid rows to process"] },
      (processRows fns dataRows 2 p []).2, none⟩
  else
    ⟨true, (processRows fns dataRows 2 p []).1, (processRows fns dataRows 2 p []).2,
      some (writeOutput fns (processRows fns dataRows 2 p []).2)⟩

/-- Header check, then the row loop. -/
def runWithRows (rows : List (List String)) (p : CSVProcessor) : RunOutcome :=
  match fieldnamesOf rows with
  | none => ⟨false, { p with errors := p.errors ++ ["CSV file has no headers"] }, [], none⟩
  | some fns => runLoop fns (dataRowsOf rows) p

/-- Body of `process_csv` after validation: open and read, header check,
row loop, then write-or-fail. -/
def runBody (fs : FS) (p : CSVProcessor) : RunOutcome :=
  match fs.read p.input_file with
  | none => ⟨false, { p with errors := p.errors ++ [readErrMsg p.input_file] }, [], none⟩
  | some rows => runWithRows rows p

/-- Model of `process_csv` (the spec's `run()`). -/
def process_csv (fs : FS) (p : CSVProcessor) : RunOutcome :=
  let v := validate_input fs p
  if v.1 then runBody fs v.2 else ⟨false, v.2, [], none⟩

/-! ## The summary (`get_summary`) -/

/-- The summary dictionary returned by `get_summary`. -/
structure Summary where
  input_file : String
  output_file : String
  processed_rows : Nat
  errors : List String
  success : Bool
deriving DecidableEq, Repr

/-- Model of `get_summary`: a projection of the instance state, with
`success` computed as `len(self.errors) == 0`. -/
def get_summary (p : CSVProcessor) : Summary :=
  ⟨p.input_file, p.output_file, p.processed_rows, p.errors, p.errors.length == 0⟩

/-! ## Concrete inputs used as counterexamples and witnesses -/

/-- The worked input of the design document: header plus four data rows, of
which exactly the first is valid. -/
def exRows : List (List String) :=
  [["id", "name", "value"],
   ["1", "Alice", "10.5"],
   ["2", " ", "5"],
   ["3", "Bob", "-1"],
   ["x", "Eve", "3"]]

/-- A filesystem holding the worked input at "in.csv". -/
def exFS : FS := ⟨[("in.csv", FSNode.file exRows)]⟩

/-- A fresh processor over the worked input. -/
def exProc : CSVProcessor := CSVProcessor.init "in.csv" "out.csv"

/-- The empty filesystem: no path exists. -/
def emptyFS : FS := ⟨[]⟩

/-- The three-column header used by short-row witnesses. -/
def exHeader : List String := ["id", "name", "value"]

/-- A decimal rational: an integer divided by a power of ten.  Every value
`float()` produces in this model has this form. -/
def IsDecimal (q : Rat) : Prop := ∃ (m : Int) (k : Nat), q = (m : Rat) / (10 : Rat) ^ k

/-! ## Lemmas about stripping -/

theorem dropWhile_of_forall_false {p : Char → Bool} {l : List Char}
    (h : ∀ c ∈ l, p c = false) : l.dropWhile p = l := by
  cases l with
  | nil => rfl
  | cons c t => simp [List.dropWhile_cons, h c (List.mem_cons_self c t)]

theorem mem_of_mem_dropWhile {p : Char → Bool} {l : List Char} {c : Char}
    (h : c ∈ l.dropWhile p) : c ∈ l := by
  induction l with
  | nil => simp at h
  | cons a t ih =>
    rw [List.dropWhile_cons] at h
    by_cases hp : p a = true
    · simp only [hp, if_true] at h
      exact List.mem_cons_of_mem _ (ih h)
    · simp only [hp, if_false] at h
      exact h

/-- Stripping a list with no whitespace characters is the identity. -/
theorem pyStripList_of_no_space {l : List Char}
    (h : ∀ c ∈ l, isPySpace c = false) : pyStripList l = l := by
  unfold pyStripList
  rw [dropWhile_of_forall_false h]
  rw [dropWhile_of_forall_false (fun c hc => h c (List.mem_reverse.mp hc))]
  exact List.reverse_reverse l

theorem dropWhile_dropWhile (p : Char → Bool) (l : List Char) :
    (l.dropWhile p).dropWhile p = l.dropWhile p := by
  induction l with
  | nil => rfl
  | cons a t ih =>
    rw [List.dropWhile_cons]
    by_cases hp : p a = true
    · simpa [hp] using ih
    · simp [List.dropWhile_cons, hp]

/-- `dropWhile` removes an initial segment: the remainder completes to the list. -/
theorem dropWhile_exists_front (p : Char → Bool) (l : List Char) :
    ∃ t, t ++ l.dropWhile p = l := by
  induction l with
  | nil => exact ⟨[], rfl⟩
  | cons a t ih =>
    rw [List.dropWhile_cons]
    by_cases hp : p a = true
    · obtain ⟨u, hu⟩ := ih
      exact ⟨a :: u, by simp [hp, hu]⟩
    · exact ⟨[], by simp [hp]⟩

theorem length_dropWhile_le' (p : Char → Bool) (l : List Char) :
    (l.dropWhile p).length ≤ l.length := by
  induction l with
  | nil => simp
  | cons a t ih =>
    rw [List.dropWhile_cons]
    by_cases hp : p a = true
    · simp only [hp, if_true]
      exact Nat.le_succ_of_le ih
    · simp [hp]

/-- A left part of a `dropWhile`-fixed list is itself `dropWhile`-fixed. -/
theorem dropWhile_left_part {p : Char → Bool} {a b : List Char}
    (h : List.dropWhile p (a ++ b) = a ++ b) : a.dropWhile p = a := by
  cases a with
  | nil => rfl
  | cons c t =>
    rw [List.cons_append, List.dropWhile_cons] at h
    by_cases hp : p c = true
    · exfalso
      have hlen := congrArg List.length h
      have hle : (List.dropWhile p (t ++ b)).length ≤ (t ++ b).length :=
        length_dropWhile_le' p (t ++ b)
      simp only [hp, if_true] at hlen
      rw [hlen] at hle
      simp at hle
    · simp [List.dropWhile_cons, hp]

/-- Python `strip()` is idempotent. -/
theorem pyStripList_idem (l : List Char) :
    pyStripList (pyStripList l) = pyStripList l := by
  set m := l.dropWhile isPySpace with hm
  have hmfix : m.dropWhile isPySpace = m := by rw [hm]; exact dropWhile_dropWhile _ _
  have hstrip : pyStripList l = (m.reverse.dropWhile isPySpace).reverse := rfl
  obtain ⟨t, ht⟩ := dropWhile_exists_front isPySpace m.reverse
  have hmdecomp : m = (m.reverse.dropWhile isPySpace).reverse ++ t.reverse := by
    have := congrArg List.reverse ht
    simpa [List.reverse_append] using this.symm
  have hfix1 : ((m.reverse.dropWhile isPySpace).reverse).dropWhile isPySpace =
      (m.reverse.dropWhile isPySpace).reverse := by
    apply dropWhile_left_part (b := t.reverse)
    rw [← hmdecomp]; exact hmfix
  rw [hstrip]
  unfold pyStripList
  rw [hfix1, List.reverse_reverse, dropWhile_dropWhile]

/-- Python `strip()` on strings is idempotent. -/
theorem pyStrip_idem (s : String) : pyStrip (pyStrip s) = pyStrip s := by
  unfold pyStrip
  exact congrArg String.mk (pyStripList_idem s.data)

/-- The stripped string is empty exactly when the stripped character list is. -/
theorem pyStrip_eq_empty_iff (s : String) :
    pyStrip s = "" ↔ pyStripList s.data = [] := by
  constructor
  · intro h
    have := congrArg String.data h
    simpa [pyStrip] using this
  · intro h
    simp [pyStrip, h]

/-! ## Lemmas about digits and numeric round-trips -/

/-- A digit character is one of the ten digit characters. -/
theorem isDigitCh_cases {c : Char} (h : isDigitCh c = true) :
    c = '0' ∨ c = '1' ∨ c = '2' ∨ c = '3' ∨ c = '4' ∨
      c = '5' ∨ c = '6' ∨ c = '7' ∨ c = '8' ∨ c = '9' := by
  have : c ∈ digitChars := by
    simpa [isDigitCh] using h
  simpa [digitChars] using this

/-- Digit characters are not whitespace, signs, exponent markers or points. -/
theorem isDigitCh_not_special {c : Char} (h : isDigitCh c = true) :
    isPySpace c = false ∧ c ≠ '+' ∧ c ≠ '-' ∧ isExpCh c = false ∧ c ≠ '.' := by
  rcases isDigitCh_cases h with h | h | h | h | h | h | h | h | h | h <;>
    subst h <;> exact ⟨by decide, by decide, by decide, by decide, by decide⟩

theorem digitVal_digitCh {d : Nat} (h : d < 10) : digitVal (digitCh d) = d := by
  interval_cases d <;> decide

theorem isDigitCh_digitCh {d : Nat} (h : d < 10) : isDigitCh (digitCh d) = true := by
  interval_cases d <;> decide

/-- The fuel-based digits agree with `Nat.digits` in base 10 when the fuel
suffices. -/
theorem natDigitsFuel_eq_digits : ∀ (fuel n : Nat), n ≤ fuel →
    natDigitsFuel fuel n = Nat.digits 10 n := by
  intro fuel
  induction fuel with
  | zero =>
    intro n hn
    interval_cases n
    simp [natDigitsFuel, Nat.digits_zero]
  | succ fuel ih =>
    intro n hn
    by_cases h : n = 0
    · subst h
      simp [natDigitsFuel, Nat.digits_zero]
    · have hpos : 0 < n := Nat.pos_of_ne_zero h
      have hdiv : n / 10 ≤ fuel := by
        have := Nat.div_lt_self hpos (by norm_num : 1 < 10)
        omega
      show (if n = 0 then [] else n % 10 :: natDigitsFuel fuel (n / 10)) = Nat.digits 10 n
      rw [if_neg h, ih (n / 10) hdiv]
      exact (Nat.digits_def' (by norm_num : 1 < 10) hpos).symm

/-- The serialized digit characters, written via `Nat.digits`. -/
theorem natToDigitChars_def (n : Nat) :
    natToDigitChars n =
      if n = 0 then ['0'] else ((Nat.digits 10 n).map digitCh).reverse := by
  unfold natToDigitChars
  rw [natDigitsFuel_eq_digits n n le_rfl]

/-- Every character of a serialized natural number is a digit. -/
theorem natToDigitChars_all_digit (n : Nat) :
    ∀ c ∈ natToDigitChars n, isDigitCh c = true := by
  intro c hc
  rw [natToDigitChars_def] at hc
  by_cases h : n = 0
  · simp [h] at hc
    subst hc; decide
  · simp only [h, if_false] at hc
    rw [List.mem_reverse] at hc
    obtain ⟨d, hd, rfl⟩ := List.mem_map.mp hc
    exact isDigitCh_digitCh (Nat.digits_lt_base (by norm_num) hd)

theorem natToDigitChars_ne_nil (n : Nat) : natToDigitChars n ≠ [] := by
  rw [natToDigitChars_def]
  by_cases h : n = 0
  · simp [h]
  · simp only [h, if_false, ne_eq, List.reverse_eq_nil_iff, List.map_eq_nil_iff]
    exact Nat.digits_ne_nil_iff_ne_zero.mpr h

/-- Accumulator form of evaluating a big-endian digit list. -/
theorem foldl_mul_add (ds : List Nat) :
    ∀ a : Nat, ds.foldl (fun x d => x * 10 + d) a =
      a * 10 ^ ds.length + Nat.ofDigits 10 ds.reverse := by
  induction ds with
  | nil => intro a; simp [Nat.ofDigits]
  | cons d t ih =>
    intro a
    rw [List.foldl_cons, ih (a * 10 + d)]
    rw [List.reverse_cons, Nat.ofDigits_append]
    simp [Nat.ofDigits]
    ring

/-- Parsing the serialized digits of `n` recovers `n`. -/
theorem readNatDigits_natToDigitChars (n : Nat) :
    readNatDigits (natToDigitChars n) = some n := by
  unfold readNatDigits
  rw [if_neg (by simpa [List.isEmpty_iff] using natToDigitChars_ne_nil n)]
  rw [if_pos (List.all_eq_true.mpr (fun c hc => natToDigitChars_all_digit n c hc))]
  congr 1
  have hmap : (natToDigitChars n).foldl (fun a c => a * 10 + digitVal c) 0 =
      ((natToDigitChars n).map digitVal).foldl (fun x d => x * 10 + d) 0 := by
    rw [List.foldl_map]
  rw [hmap]
  by_cases h : n = 0
  · subst h; decide
  · have hchars : (natToDigitChars n).map digitVal = (Nat.digits 10 n).reverse := by
      rw [natToDigitChars_def]
      rw [if_neg h, List.map_reverse, List.map_map]
      congr 1
      have : List.map (digitVal ∘ digitCh) (Nat.digits 10 n) =
          List.map id (Nat.digits 10 n) :=
        List.map_congr_left
          (fun d hd => digitVal_digitCh (Nat.digits_lt_base (by norm_num) hd))
      rw [this, List.map_id]
    rw [hchars, foldl_mul_add]
    simp [Nat.ofDigits_digits]

theorem intToChars_no_space (i : Int) : ∀ c ∈ intToChars i, isPySpace c = false := by
  intro c hc
  unfold intToChars at hc
  rcases List.mem_append.mp hc with h | h
  · by_cases hneg : i < 0
    · rw [if_pos hneg] at h
      simp at h
      subst h; decide
    · rw [if_neg hneg] at h
      simp at h
  · exact (isDigitCh_not_special (natToDigitChars_all_digit _ c h)).1

/-- Unfolding `pyIntParseL` when the stripped input is known. -/
theorem pyIntParseL_of_strip {l : List Char} {c : Char} {r : List Char}
    (h : pyStripList l = c :: r) :
    pyIntParseL l =
      if c = '+' then (readNatDigits r).map (fun n : Nat => (n : Int))
      else if c = '-' then (readNatDigits r).map (fun n : Nat => -(n : Int))
      else (readNatDigits (c :: r)).map (fun n : Nat => (n : Int)) := by
  unfold pyIntParseL
  rw [h]

theorem pyIntParseL_of_strip_nil {l : List Char}
    (h : pyStripList l = []) : pyIntParseL l = none := by
  unfold pyIntParseL
  rw [h]

/-- An integer-parseable string is non-blank. -/
theorem pyIntParse_strip_ne_empty {s : String} {i : Int}
    (h : pyIntParse s = some i) : pyStrip s ≠ "" := by
  intro he
  rw [pyStrip_eq_empty_iff] at he
  rw [pyIntParse, pyIntParseL_of_strip_nil he] at h
  exact Option.noConfusion h

/-- Parsing the serialized form of an integer recovers it (model of
`int(str(i)) == i`). -/
theorem pyIntParse_intToStr (i : Int) : pyIntParse (intToStr i) = some i := by
  have hds : (intToStr i).data = intToChars i := rfl
  rw [pyIntParse, hds]
  have hstrip : pyStripList (intToChars i) = intToChars i :=
    pyStripList_of_no_space (intToChars_no_space i)
  by_cases hneg : i < 0
  · have hform : intToChars i = '-' :: natToDigitChars i.natAbs := by
      unfold intToChars
      rw [if_pos hneg]
      rfl
    rw [hform] at hstrip ⊢
    rw [pyIntParseL_of_strip hstrip]
    rw [if_neg (by decide), if_pos rfl]
    rw [readNatDigits_natToDigitChars]
    show some (-((i.natAbs : Nat) : Int)) = some i
    congr 1
    omega
  · have hform : intToChars i = natToDigitChars i.natAbs := by
      unfold intToChars
      rw [if_neg hneg]
      rfl
    obtain ⟨c, r, hcr⟩ := List.exists_cons_of_ne_nil (natToDigitChars_ne_nil i.natAbs)
    have hc : isDigitCh c = true :=
      natToDigitChars_all_digit i.natAbs c (by rw [hcr]; exact List.mem_cons_self c r)
    have hspec := isDigitCh_not_special hc
    rw [hform, hcr] at hstrip ⊢
    rw [pyIntParseL_of_strip hstrip]
    rw [if_neg hspec.2.1, if_neg hspec.2.2.1]
    rw [← hcr, readNatDigits_natToDigitChars]
    show some (((i.natAbs : Nat) : Int)) = some i
    congr 1
    omega

/-! ## Lemmas about the float parser and serializer -/

theorem breakWhen_nil (p : Char → Bool) : breakWhen p [] = none := rfl

theorem breakWhen_cons (p : Char → Bool) (x : Char) (xs : List Char) :
    breakWhen p (x :: xs) =
      if p x then some ([], xs)
      else (breakWhen p xs).map (fun q => (x :: q.1, q.2)) := rfl

theorem breakWhen_none {p : Char → Bool} {l : List Char}
    (h : ∀ c ∈ l, p c = false) : breakWhen p l = none := by
  induction l with
  | nil => rfl
  | cons a t ih =>
    rw [breakWhen_cons]
    rw [if_neg (by simp [h a (List.mem_cons_self a t)])]
    rw [ih (fun c hc => h c (List.mem_cons_of_mem a hc))]
    rfl

theorem breakWhen_append {p : Char → Bool} {a : List Char} {c : Char} {b : List Char}
    (ha : ∀ x ∈ a, p x = false) (hc : p c = true) :
    breakWhen p (a ++ c :: b) = some (a, b) := by
  induction a with
  | nil =>
    rw [List.nil_append, breakWhen_cons, if_pos hc]
  | cons x t ih =>
    rw [List.cons_append, breakWhen_cons]
    rw [if_neg (by simp [ha x (List.mem_cons_self x t)])]
    rw [ih (fun y hy => ha y (List.mem_cons_of_mem x hy))]
    rfl

theorem floatToChars_no_space (v : Rat) : ∀ c ∈ floatToChars v, isPySpace c = false := by
  intro c hc
  unfold floatToChars at hc
  rcases List.mem_append.mp hc with h | h
  · rcases List.mem_append.mp h with h' | h'
    · by_cases hneg : v.num < 0
      · rw [if_pos hneg] at h'
        simp at h'
        subst h'; decide
      · rw [if_neg hneg] at h'
        simp at h'
    · exact (isDigitCh_not_special (natToDigitChars_all_digit _ c h')).1
  · simp only [List.mem_cons] at h
    rcases h with rfl | rfl | h
    · decide
    · decide
    · exact (isDigitCh_not_special (natToDigitChars_all_digit _ c h)).1

/-- Unfolding `pyFloatParseL` when the stripped input is known. -/
theorem pyFloatParseL_of_strip {l : List Char} {c : Char} {r : List Char}
    (h : pyStripList l = c :: r) :
    pyFloatParseL l =
      if c = '+' then pyFloatCore false r
      else if c = '-' then pyFloatCore true r
      else pyFloatCore false (c :: r) := by
  unfold pyFloatParseL
  rw [h]

theorem pyFloatParseL_of_strip_nil {l : List Char}
    (h : pyStripList l = []) : pyFloatParseL l = none := by
  unfold pyFloatParseL
  rw [h]

/-- A float-parseable string is non-blank. -/
theorem pyFloatParse_strip_ne_empty {s : String} {v : Rat}
    (h : pyFloatParse s = some v) : pyStrip s ≠ "" := by
  intro he
  rw [pyStrip_eq_empty_iff] at he
  rw [pyFloatParse, pyFloatParseL_of_strip_nil he] at h
  exact Option.noConfusion h

theorem readMantissa_natToDigitChars (n : Nat) :
    readMantissa (natToDigitChars n) = some (n, 0) := by
  unfold readMantissa
  rw [breakWhen_none
    (fun c hc => by
      have := (isDigitCh_not_special (natToDigitChars_all_digit n c hc)).2.2.2.2
      simpa using this)]
  rw [readNatDigits_natToDigitChars]
  rfl

theorem readExp_cons (c : Char) (r : List Char) :
    readExp (c :: r) =
      if c = '+' then (readNatDigits r).map (fun n : Nat => (n : Int))
      else if c = '-' then (readNatDigits r).map (fun n : Nat => -(n : Int))
      else (readNatDigits (c :: r)).map (fun n : Nat => (n : Int)) := rfl

theorem readExp_neg_pow (k : Nat) :
    readExp ('-' :: natToDigitChars k) = some (-(k : Int)) := by
  rw [readExp_cons]
  rw [if_neg (by decide), if_pos rfl, readNatDigits_natToDigitChars]
  rfl

/-- A positive divisor of a power of ten divides the power of ten with the
divisor itself as exponent. -/
theorem dvd_ten_pow_self {d j : Nat} (hd : 0 < d) (h : d ∣ 10 ^ j) : d ∣ 10 ^ d := by
  have h' : d ∣ 2 ^ j * 5 ^ j := by
    rw [← Nat.mul_pow]
    exact h
  obtain ⟨y, z, hy, hz, hyz⟩ := Nat.dvd_mul.mp h'
  obtain ⟨a, _, rfl⟩ := (Nat.dvd_prime_pow Nat.prime_two).mp hy
  obtain ⟨b, _, rfl⟩ := (Nat.dvd_prime_pow Nat.prime_five).mp hz
  have ha : a ≤ d := by
    have h2 : 2 ^ a ≤ d := Nat.le_of_dvd hd ⟨5 ^ b, hyz.symm⟩
    have := Nat.lt_two_pow a
    omega
  have hb : b ≤ d := by
    have h5 : 5 ^ b ≤ d := Nat.le_of_dvd hd ⟨2 ^ a, by rw [← hyz]; ring⟩
    have := Nat.lt_pow_self (by norm_num : 1 < 5) b
    omega
  have hdvd2 : 2 ^ a * 5 ^ b ∣ 10 ^ d := by
    have hten : (10 : Nat) ^ d = 2 ^ d * 5 ^ d := by rw [← Nat.mul_pow]
    rw [hten]
    exact mul_dvd_mul (pow_dvd_pow 2 ha) (pow_dvd_pow 5 hb)
  rw [hyz] at hdvd2
  exact hdvd2

/-- The denominator of a decimal rational divides the corresponding power of ten. -/
theorem IsDecimal.den_dvd_pow {v : Rat} (h : IsDecimal v) : v.den ∣ 10 ^ v.den := by
  obtain ⟨m, k, hv⟩ := h
  have hcast : v = (m : Rat) / (((10 ^ k : Int)) : Rat) := by
    rw [hv]; push_cast; ring
  have hdvd : ((v.den : Int)) ∣ (10 ^ k : Int) := by
    rw [hcast, ← Rat.divInt_eq_div]
    exact Rat.den_dvd m (10 ^ k)
  have hnat : v.den ∣ 10 ^ k := by
    have h10 : ((10 ^ k : Nat) : Int) = (10 ^ k : Int) := by push_cast; ring
    rw [← h10] at hdvd
    exact_mod_cast hdvd
  exact dvd_ten_pow_self v.den_pos hnat

/-- Parsing the serialized form of a non-negative decimal rational recovers
it (model of `float(str(v)) == v` for values the pipeline produces). -/
theorem pyFloatParse_floatToStr {v : Rat} (hdec : IsDecimal v) (hnn : 0 ≤ v) :
    pyFloatParse (floatToStr v) = some v := by
  have hds : (floatToStr v).data = floatToChars v := rfl
  rw [pyFloatParse, hds]
  have hnum : ¬ v.num < 0 := by
    rw [not_lt]
    exact Rat.num_nonneg.mpr hnn
  set n := v.num.natAbs * (10 ^ v.den / v.den) with hn
  have hstrip : pyStripList (floatToChars v) = floatToChars v :=
    pyStripList_of_no_space (floatToChars_no_space v)
  obtain ⟨c, r, hcr⟩ := List.exists_cons_of_ne_nil (natToDigitChars_ne_nil n)
  have hc : isDigitCh c = true :=
    natToDigitChars_all_digit n c (by rw [hcr]; exact List.mem_cons_self c r)
  have hspec := isDigitCh_not_special hc
  have hform' : floatToChars v = c :: (r ++ 'e' :: '-' :: natToDigitChars v.den) := by
    unfold floatToChars
    rw [if_neg hnum, ← hn, hcr]
    simp
  rw [hform'] at hstrip
  rw [hform', pyFloatParseL_of_strip hstrip]
  rw [if_neg hspec.2.1, if_neg hspec.2.2.1]
  unfold pyFloatCore
  have hbreak : breakWhen isExpCh (c :: (r ++ 'e' :: '-' :: natToDigitChars v.den)) =
      some (c :: r, '-' :: natToDigitChars v.den) := by
    have hsplit : c :: (r ++ 'e' :: '-' :: natToDigitChars v.den) =
        (c :: r) ++ 'e' :: ('-' :: natToDigitChars v.den) := by simp
    rw [hsplit]
    apply breakWhen_append
    · intro x hx
      have hxd : isDigitCh x = true := by
        apply natToDigitChars_all_digit n
        rw [hcr]
        exact hx
      exact (isDigitCh_not_special hxd).2.2.2.1
    · decide
  rw [hbreak, ← hcr]
  show (match readMantissa (natToDigitChars n), readExp ('-' :: natToDigitChars v.den) with
    | some m, some e => some (decValue false m.1 m.2 e)
    | _, _ => none) = some v
  rw [readMantissa_natToDigitChars, readExp_neg_pow]
  show some (decValue false n 0 (-(v.den : Int))) = some v
  congr 1
  have hden0 : v.den ≠ 0 := v.den_nz
  have hnegc : ¬ (0 : Int) ≤ -(v.den : Int) := by
    have := v.den_pos
    simp only [not_le]
    omega
  simp only [decValue, Bool.false_eq_true, if_false]
  rw [if_neg hnegc]
  simp only [neg_neg, Int.toNat_natCast]
  rw [pow_zero, div_one]
  have hdvd : v.den ∣ 10 ^ v.den := IsDecimal.den_dvd_pow hdec
  have hq : ((10 ^ v.den / v.den : Nat) : Rat) = (10 : Rat) ^ v.den / (v.den : Rat) := by
    rw [Nat.cast_div hdvd (Nat.cast_ne_zero.mpr hden0)]
    push_cast
    ring
  have habs : ((v.num.natAbs : Nat) : Rat) = (v.num : Rat) := by
    have h0 : (0 : Int) ≤ v.num := by omega
    rw [Int.cast_natAbs]
    exact_mod_cast congrArg (fun z : Int => (z : Rat)) (abs_of_nonneg h0)
  have hcast : ((n : Nat) : Rat) = (v.num : Rat) * ((10 : Rat) ^ v.den / (v.den : Rat)) := by
    rw [hn, Nat.cast_mul, hq, habs]
  rw [hcast]
  rw [div_eq_iff (by positivity : ((10 : Rat) ^ v.den) ≠ 0)]
  calc (v.num : Rat) * ((10 : Rat) ^ v.den / (v.den : Rat))
      = ((v.num : Rat) / (v.den : Rat)) * (10 : Rat) ^ v.den := by ring
    _ = v * (10 : Rat) ^ v.den := by rw [Rat.num_div_den]

theorem IsDecimal.neg {x : Rat} (h : IsDecimal x) : IsDecimal (-x) := by
  obtain ⟨m, k, rfl⟩ := h
  exact ⟨-m, k, by push_cast; ring⟩

/-- Every value a float literal denotes is a decimal rational. -/
theorem decValue_isDecimal (neg : Bool) (mant fracLen : Nat) (e : Int) :
    IsDecimal (decValue neg mant fracLen e) := by
  have hpos : IsDecimal ((mant : Rat) / (10 : Rat) ^ fracLen * (10 : Rat) ^ e.toNat) :=
    ⟨(mant * 10 ^ e.toNat : Int), fracLen, by push_cast; ring⟩
  have hneg2 : IsDecimal ((mant : Rat) / (10 : Rat) ^ fracLen / (10 : Rat) ^ (-e).toNat) :=
    ⟨(mant : Int), fracLen + (-e).toNat, by
      push_cast
      rw [pow_add, div_div]⟩
  simp only [decValue]
  by_cases he : 0 ≤ e
  · rw [if_pos he]
    cases neg
    · simpa using hpos
    · simpa using hpos.neg
  · rw [if_neg he]
    cases neg
    · simpa using hneg2
    · simpa using hneg2.neg

theorem pyFloatCore_isDecimal {neg : Bool} {t : List Char} {v : Rat}
    (h : pyFloatCore neg t = some v) : IsDecimal v := by
  unfold pyFloatCore at h
  cases hb : breakWhen isExpCh t with
  | none =>
    rw [hb] at h
    obtain ⟨m, _, rfl⟩ := Option.map_eq_some'.mp h
    exact decValue_isDecimal neg m.1 m.2 0
  | some p =>
    obtain ⟨mant, ex⟩ := p
    rw [hb] at h
    replace h : (match readMantissa mant, readExp ex with
      | some m, some e => some (decValue neg m.1 m.2 e)
      | _, _ => none) = some v := h
    cases hm : readMantissa mant with
    | none =>
      rw [hm] at h
      exact absurd h (by simp)
    | some m =>
      cases hex : readExp ex with
      | none =>
        rw [hm, hex] at h
        exact absurd h (by simp)
      | some e =>
        rw [hm, hex] at h
        simp only [Option.some_inj] at h
        rw [← h]
        exact decValue_isDecimal neg m.1 m.2 e

/-- Every value produced by the float parser is a decimal rational. -/
theorem pyFloatParse_isDecimal {s : String} {v : Rat}
    (h : pyFloatParse s = some v) : IsDecimal v := by
  rw [pyFloatParse] at h
  cases hst : pyStripList s.data with
  | nil =>
    rw [pyFloatParseL_of_strip_nil hst] at h
    exact Option.noConfusion h
  | cons c r =>
    rw [pyFloatParseL_of_strip hst] at h
    by_cases h1 : c = '+'
    · rw [if_pos h1] at h
      exact pyFloatCore_isDecimal h
    · rw [if_neg h1] at h
      by_cases h2 : c = '-'
      · rw [if_pos h2] at h
        exact pyFloatCore_isDecimal h
      · rw [if_neg h2] at h
        exact pyFloatCore_isDecimal h

/-! ## Lemmas about the row dictionary -/

theorem lookupD_dictUpsert (k : String) (v : Option String) (d : Dict) (q : String) :
    lookupD (dictUpsert k v d) q = if q = k then some v else lookupD d q := by
  induction d with
  | nil =>
    simp only [dictUpsert, lookupD]
  | cons kv d ih =>
    obtain ⟨k', v'⟩ := kv
    simp only [dictUpsert]
    by_cases h1 : k' = k
    · rw [if_pos h1]
      simp only [lookupD]
      by_cases h2 : q = k
      · rw [if_pos h2, if_pos h2]
      · rw [if_neg h2, if_neg h2, h1, if_neg h2]
    · rw [if_neg h1]
      simp only [lookupD]
      by_cases h2 : q = k'
      · rw [if_pos h2, if_pos h2, if_neg (by rw [h2]; exact fun hk => h1 hk)]
      · rw [if_neg h2, if_neg h2, ih]

/-- Folding upserts over pairs not mentioning `k` leaves `k`'s lookup alone. -/
theorem lookupD_foldl_not_mem {L : List (String × Option String)} {k : String}
    (h : k ∉ L.map Prod.fst) (d : Dict) :
    lookupD (L.foldl (fun d kv => dictUpsert kv.1 kv.2 d) d) k = lookupD d k := by
  induction L generalizing d with
  | nil => rfl
  | cons kv L ih =>
    simp only [List.map_cons, List.mem_cons] at h
    push_neg at h
    rw [List.foldl_cons, ih h.2, lookupD_dictUpsert, if_neg h.1]

theorem lookupD_foldl_isSome {L : List (String × Option String)} {k : String} (d : Dict)
    (h : (lookupD (L.foldl (fun d kv => dictUpsert kv.1 kv.2 d) d) k).isSome = true) :
    k ∈ L.map Prod.fst ∨ (lookupD d k).isSome = true := by
  induction L generalizing d with
  | nil => exact Or.inr h
  | cons kv L ih =>
    rw [List.foldl_cons] at h
    rcases ih _ h with hm | hs
    · exact Or.inl (List.mem_cons_of_mem _ hm)
    · rw [lookupD_dictUpsert] at hs
      by_cases hk : k = kv.1
      · exact Or.inl (by simp [hk])
      · rw [if_neg hk] at hs
        exact Or.inr hs

/-- When every binding of `k` in the pair list carries the value `v`, the
built dictionary looks `k` up to `v`. -/
theorem lookupD_foldl_const {L : List (String × Option String)} {k : String}
    {v : Option String} (hu : ∀ kv ∈ L, kv.1 = k → kv.2 = v)
    (hm : k ∈ L.map Prod.fst) (d : Dict) :
    lookupD (L.foldl (fun d kv => dictUpsert kv.1 kv.2 d) d) k = some v := by
  induction L generalizing d with
  | nil => simp at hm
  | cons kv L ih =>
    rw [List.foldl_cons]
    by_cases hmem : k ∈ L.map Prod.fst
    · exact ih (fun x hx => hu x (List.mem_cons_of_mem kv hx)) hmem _
    · have hk : kv.1 = k := by
        simp only [List.map_cons, List.mem_cons] at hm
        rcases hm with h | h
        · exact h.symm
        · exact absurd h hmem
      rw [lookupD_foldl_not_mem hmem, lookupD_dictUpsert, if_pos hk.symm]
      rw [hu kv (List.mem_cons_self kv L) hk]

theorem pairUp_map_fst (fns : List String) (cells : List String) :
    (pairUp fns cells).map Prod.fst = fns := by
  induction fns generalizing cells with
  | nil => rfl
  | cons f fs ih =>
    cases cells with
    | nil => simp [pairUp, ih]
    | cons c cs => simp [pairUp, ih]

theorem pairUp_self_map (fns : List String) (g : String → String) :
    pairUp fns (fns.map g) = fns.map (fun f => (f, some (g f))) := by
  induction fns with
  | nil => rfl
  | cons f fs ih => simp [pairUp, ih]

/-- Looking up a present key in a dictionary built from a whole-row write. -/
theorem lookupD_buildDict_map {fns : List String} {f : String} (g : String → String)
    (hf : f ∈ fns) :
    lookupD (buildDict fns (fns.map g)) f = some (some (g f)) := by
  unfold buildDict
  rw [pairUp_self_map]
  apply lookupD_foldl_const
  · intro kv hkv hk
    obtain ⟨x, _, rfl⟩ := List.mem_map.mp hkv
    simp only at hk
    rw [hk]
  · rw [List.map_map]
    simpa using hf

/-- Keys found in a built dictionary come from the header. -/
theorem mem_of_lookupD_buildDict {fns cells : List String} {f : String}
    (h : (lookupD (buildDict fns cells) f).isSome = true) : f ∈ fns := by
  unfold buildDict at h
  rcases lookupD_foldl_isSome _ h with hm | hs
  · rwa [pairUp_map_fst] at hm
  · simp [lookupD] at hs

/-! ## Lemmas about the row transform -/

theorem getReq_inr_iff {d : Dict} {n : Nat} {f s : String} :
    getReq d n f = Sum.inr s ↔ lookupD d f = some (some s) ∧ pyStrip s ≠ "" := by
  unfold getReq
  cases h : lookupD d f with
  | none => simp
  | some o =>
    cases o with
    | none => simp
    | some t =>
      show (if pyStrip t = "" then Sum.inl (FieldIssue.missing (missingFieldMsg n f))
        else Sum.inr t) = Sum.inr s ↔ some (some t) = some (some s) ∧ pyStrip s ≠ ""
      by_cases ht : pyStrip t = ""
      · rw [if_pos ht]
        constructor
        · intro hc
          exact absurd hc (by simp)
        · rintro ⟨h1, h2⟩
          injection h1 with h1
          injection h1 with h1
          rw [h1] at ht
          exact absurd ht h2
      · rw [if_neg ht]
        constructor
        · intro hc
          injection hc with hc
          subst hc
          exact ⟨rfl, ht⟩
        · rintro ⟨h1, _⟩
          injection h1 with h1
          injection h1 with h1
          rw [h1]

theorem requiredStrings_inr_iff {d : Dict} {n : Nat} {sid sname sval : String} :
    requiredStrings d n = Sum.inr (sid, sname, sval) ↔
      getReq d n "id" = Sum.inr sid ∧ getReq d n "name" = Sum.inr sname ∧
        getReq d n "value" = Sum.inr sval := by
  unfold requiredStrings
  cases h1 : getReq d n "id" with
  | inl i1 => simp [h1]
  | inr a =>
    cases h2 : getReq d n "name" with
    | inl i2 => simp
    | inr b =>
      cases h3 : getReq d n "value" with
      | inl i3 => simp
      | inr c =>
        constructor
        · intro hc
          injection hc with hc
          rw [Prod.mk.injEq] at hc
          obtain ⟨ha, hc2⟩ := hc
          rw [Prod.mk.injEq] at hc2
          obtain ⟨hb, hcv⟩ := hc2
          subst ha
          subst hb
          subst hcv
          exact ⟨rfl, rfl, rfl⟩
        · rintro ⟨ha, hb, hc⟩
          injection ha with ha
          injection hb with hb
          injection hc with hc
          rw [ha, hb, hc]

theorem processRow_of_missing {d : Dict} {n : Nat} {diag : String}
    (h : requiredStrings d n = Sum.inl (FieldIssue.missing diag)) :
    processRow d n = ⟨none, none, [diag]⟩ := by
  unfold processRow
  rw [h]

theorem processRow_of_raise {d : Dict} {n : Nat} {msg : String}
    (h : requiredStrings d n = Sum.inl (FieldIssue.raise msg)) :
    processRow d n = ⟨none, some msg, []⟩ := by
  unfold processRow
  rw [h]

theorem processRow_of_inr {d : Dict} {n : Nat} {sid sname sval : String}
    (h : requiredStrings d n = Sum.inr (sid, sname, sval)) :
    processRow d n = processConv sid sname sval n := by
  unfold processRow
  rw [h]

theorem processConv_intErr {sid sname sval : String} {n : Nat}
    (h : pyIntParse sid = none) :
    processConv sid sname sval n = ⟨none, none, [convErrMsg n (intErrDetail sid)]⟩ := by
  unfold processConv
  rw [h]

theorem processConv_floatErr {sid sname sval : String} {n : Nat} {i : Int}
    (hi : pyIntParse sid = some i) (h : pyFloatParse sval = none) :
    processConv sid sname sval n = ⟨none, none, [convErrMsg n (floatErrDetail sval)]⟩ := by
  unfold processConv
  rw [hi]
  show (match pyFloatParse sval with
    | none => RowResult.mk none none [convErrMsg n (floatErrDetail sval)]
    | some v =>
      if v < 0 then ⟨none, none, [negValueMsg n]⟩
      else ⟨some ⟨i, pyStrip sname, v⟩, none, []⟩) =
    ⟨none, none, [convErrMsg n (floatErrDetail sval)]⟩
  rw [h]

theorem processConv_negErr {sid sname sval : String} {n : Nat} {i : Int} {v : Rat}
    (hi : pyIntParse sid = some i) (hv : pyFloatParse sval = some v) (hneg : v < 0) :
    processConv sid sname sval n = ⟨none, none, [negValueMsg n]⟩ := by
  unfold processConv
  rw [hi]
  show (match pyFloatParse sval with
    | none => RowResult.mk none none [convErrMsg n (floatErrDetail sval)]
    | some v =>
      if v < 0 then ⟨none, none, [negValueMsg n]⟩
      else ⟨some ⟨i, pyStrip sname, v⟩, none, []⟩) =
    ⟨none, none, [negValueMsg n]⟩
  rw [hv]
  show (if v < 0 then RowResult.mk none none [negValueMsg n]
    else ⟨some ⟨i, pyStrip sname, v⟩, none, []⟩) = ⟨none, none, [negValueMsg n]⟩
  rw [if_pos hneg]

theorem processConv_ok {sid sname sval : String} {n : Nat} {i : Int} {v : Rat}
    (hi : pyIntParse sid = some i) (hv : pyFloatParse sval = some v) (hneg : ¬ v < 0) :
    processConv sid sname sval n = ⟨some ⟨i, pyStrip sname, v⟩, none, []⟩ := by
  unfold processConv
  rw [hi]
  show (match pyFloatParse sval with
    | none => RowResult.mk none none [convErrMsg n (floatErrDetail sval)]
    | some v =>
      if v < 0 then ⟨none, none, [negValueMsg n]⟩
      else ⟨some ⟨i, pyStrip sname, v⟩, none, []⟩) =
    ⟨some ⟨i, pyStrip sname, v⟩, none, []⟩
  rw [hv]
  show (if v < 0 then RowResult.mk none none [negValueMsg n]
    else ⟨some ⟨i, pyStrip sname, v⟩, none, []⟩) = ⟨some ⟨i, pyStrip sname, v⟩, none, []⟩
  rw [if_neg hneg]

/-- Inversion: what holds of an accepted row. -/
theorem processRow_record_some {d : Dict} {n : Nat} {r : TypedRecord}
    (h : (processRow d n).record = some r) :
    ∃ sid sname sval, requiredStrings d n = Sum.inr (sid, sname, sval) ∧
      pyIntParse sid = some r.id ∧ r.name = pyStrip sname ∧
      pyFloatParse sval = some r.value ∧ ¬ r.value < 0 := by
  cases hrs : requiredStrings d n with
  | inl iss =>
    cases iss with
    | missing diag => rw [processRow_of_missing hrs] at h; exact Option.noConfusion h
    | raise msg => rw [processRow_of_raise hrs] at h; exact Option.noConfusion h
  | inr t =>
    obtain ⟨sid, sname, sval⟩ := t
    rw [processRow_of_inr hrs] at h
    refine ⟨sid, sname, sval, rfl, ?_⟩
    cases hi : pyIntParse sid with
    | none => rw [processConv_intErr hi] at h; exact Option.noConfusion h
    | some i =>
      cases hv : pyFloatParse sval with
      | none => rw [processConv_floatErr hi hv] at h; exact Option.noConfusion h
      | some v =>
        by_cases hneg : v < 0
        · rw [processConv_negErr hi hv hneg] at h
          exact Option.noConfusion h
        · rw [processConv_ok hi hv hneg] at h
          simp only [Option.some_inj] at h
          rw [← h]
          exact ⟨rfl, rfl, rfl, hneg⟩

/-- An accepted conversion, stated as an acceptance. -/
theorem processRow_record_of_conds {d : Dict} {n : Nat} {sid sname sval : String}
    {i : Int} {v : Rat}
    (hrs : requiredStrings d n = Sum.inr (sid, sname, sval))
    (hi : pyIntParse sid = some i) (hv : pyFloatParse sval = some v) (hneg : ¬ v < 0) :
    processRow d n = ⟨some ⟨i, pyStrip sname, v⟩, none, []⟩ := by
  rw [processRow_of_inr hrs, processConv_ok hi hv hneg]

/-! ## Lemmas about the loop and the pipeline -/

theorem processRows_nil (fns : List String) (n : Nat) (p : CSVProcessor)
    (acc : List TypedRecord) : processRows fns [] n p acc = (p, acc) := rfl

theorem processRows_cons_some {fns : List String} {cells : List String} {n : Nat}
    {r : TypedRecord} (rest : List (List String)) (p : CSVProcessor)
    (acc : List TypedRecord)
    (h : (processRow (buildDict fns cells) n).record = some r) :
    processRows fns (cells :: rest) n p acc =
      processRows fns rest (n + 1)
        { p with
            errors := p.errors ++ rowDiagnostics (processRow (buildDict fns cells) n) n,
            processed_rows := p.processed_rows + 1 }
        (acc ++ [r]) := by
  simp only [processRows]
  rw [h]

theorem processRows_cons_none {fns : List String} {cells : List String} {n : Nat}
    (rest : List (List String)) (p : CSVProcessor) (acc : List TypedRecord)
    (h : (processRow (buildDict fns cells) n).record = none) :
    processRows fns (cells :: rest) n p acc =
      processRows fns rest (n + 1)
        { p with
            errors := p.errors ++ rowDiagnostics (processRow (buildDict fns cells) n) n }
        acc := by
  simp only [processRows]
  rw [h]

/-- Every record the loop accepts was accepted by the row transform. -/
theorem mem_processRows_accepted {fns : List String} {rows : List (List String)} :
    ∀ {n : Nat} {p : CSVProcessor} {acc : List TypedRecord} {r : TypedRecord},
      r ∈ (processRows fns rows n p acc).2 →
        r ∈ acc ∨ ∃ cells m, (processRow (buildDict fns cells) m).record = some r := by
  induction rows with
  | nil =>
    intro n p acc r h
    rw [processRows_nil] at h
    exact Or.inl h
  | cons cells rest ih =>
    intro n p acc r h
    cases hr : (processRow (buildDict fns cells) n).record with
    | some r0 =>
      rw [processRows_cons_some _ _ _ hr] at h
      rcases ih h with hacc | hex
      · rcases List.mem_append.mp hacc with h1 | h1
        · exact Or.inl h1
        · simp only [List.mem_singleton] at h1
          subst h1
          exact Or.inr ⟨cells, n, hr⟩
      · exact Or.inr hex
    | none =>
      rw [processRows_cons_none _ _ _ hr] at h
      rcases ih h with hacc | hex
      · exact Or.inl hacc
      · exact Or.inr hex

/-- The loop never reads the destination path. -/
theorem processRows_output_file (fns : List String) (rows : List (List String)) :
    ∀ (n : Nat) (p : CSVProcessor) (acc : List TypedRecord) (d : String),
      processRows fns rows n { p with output_file := d } acc =
        ({ (processRows fns rows n p acc).1 with output_file := d },
          (processRows fns rows n p acc).2) := by
  induction rows with
  | nil => intro n p acc d; rfl
  | cons cells rest ih =>
    intro n p acc d
    cases hr : (processRow (buildDict fns cells) n).record with
    | some r0 =>
      rw [processRows_cons_some _ _ _ hr, processRows_cons_some _ _ _ hr]
      exact ih (n + 1)
        { p with
            errors := p.errors ++ rowDiagnostics (processRow (buildDict fns cells) n) n,
            processed_rows := p.processed_rows + 1 }
        (acc ++ [r0]) d
    | none =>
      rw [processRows_cons_none _ _ _ hr, processRows_cons_none _ _ _ hr]
      exact ih (n + 1)
        { p with
            errors := p.errors ++ rowDiagnostics (processRow (buildDict fns cells) n) n }
        acc d

theorem validate_input_output_file (fs : FS) (p : CSVProcessor) (d : String) :
    validate_input fs { p with output_file := d } =
      ((validate_input fs p).1, { (validate_input fs p).2 with output_file := d }) := by
  cases h1 : fs.pathExists p.input_file <;> cases h2 : fs.isFile p.input_file <;>
    simp [validate_input, h1, h2]

theorem runBody_of_read_none {fs : FS} {p : CSVProcessor}
    (h : fs.read p.input_file = none) :
    runBody fs p =
      ⟨false, { p with errors := p.errors ++ [readErrMsg p.input_file] }, [], none⟩ := by
  unfold runBody
  rw [h]

theorem runBody_of_read_some {fs : FS} {p : CSVProcessor} {rows : List (List String)}
    (h : fs.read p.input_file = some rows) :
    runBody fs p = runWithRows rows p := by
  unfold runBody
  rw [h]

theorem runWithRows_of_no_header {rows : List (List String)} {p : CSVProcessor}
    (h : fieldnamesOf rows = none) :
    runWithRows rows p =
      ⟨false, { p with errors := p.errors ++ ["CSV file has no headers"] }, [], none⟩ := by
  unfold runWithRows
  rw [h]

theorem runWithRows_of_header {rows : List (List String)} {p : CSVProcessor}
    {fns : List String} (h : fieldnamesOf rows = some fns) :
    runWithRows rows p = runLoop fns (dataRowsOf rows) p := by
  unfold runWithRows
  rw [h]

theorem process_csv_eq (fs : FS) (p : CSVProcessor) :
    process_csv fs p =
      if (validate_input fs p).1 then runBody fs (validate_input fs p).2
      else ⟨false, (validate_input fs p).2, [], none⟩ := rfl

theorem runLoop_output_file (fns : List String) (dataRows : List (List String))
    (p : CSVProcessor) (d : String) :
    runLoop fns dataRows { p with output_file := d } =
      ⟨(runLoop fns dataRows p).ret,
        { (runLoop fns dataRows p).state with output_file := d },
        (runLoop fns dataRows p).accepted,
        (runLoop fns dataRows p).written⟩ := by
  unfold runLoop
  rw [processRows_output_file]
  by_cases h : (processRows fns dataRows 2 p []).2.isEmpty = true <;> simp [h]

theorem runWithRows_output_file (rows : List (List String)) (p : CSVProcessor)
    (d : String) :
    runWithRows rows { p with output_file := d } =
      ⟨(runWithRows rows p).ret,
        { (runWithRows rows p).state with output_file := d },
        (runWithRows rows p).accepted,
        (runWithRows rows p).written⟩ := by
  cases h : fieldnamesOf rows with
  | none =>
    rw [runWithRows_of_no_header h, runWithRows_of_no_header h]
  | some fns =>
    rw [runWithRows_of_header h, runWithRows_of_header h]
    exact runLoop_output_file fns (dataRowsOf rows) p d

theorem runBody_output_file (fs : FS) (p : CSVProcessor) (d : String) :
    runBody fs { p with output_file := d } =
      ⟨(runBody fs p).ret,
        { (runBody fs p).state with output_file := d },
        (runBody fs p).accepted,
        (runBody fs p).written⟩ := by
  cases h : fs.read p.input_file with
  | none =>
    have h' : fs.read ({ p with output_file := d } : CSVProcessor).input_file = none := h
    rw [runBody_of_read_none h', runBody_of_read_none h]
  | some rows =>
    have h' : fs.read ({ p with output_file := d } : CSVProcessor).input_file = some rows := h
    rw [runBody_of_read_some h', runBody_of_read_some h]
    exact runWithRows_output_file rows p d

/-- The run's return value, diagnostics, accepted records and destination
content do not depend on the destination path. -/
theorem process_csv_output_file (fs : FS) (p : CSVProcessor) (d : String) :
    process_csv fs { p with output_file := d } =
      ⟨(process_csv fs p).ret,
        { (process_csv fs p).state with output_file := d },
        (process_csv fs p).accepted,
        (process_csv fs p).written⟩ := by
  rw [process_csv_eq, process_csv_eq, validate_input_output_file]
  by_cases h : (validate_input fs p).1 = true
  · simp only [h, if_true]
    exact runBody_output_file fs (validate_input fs p).2 d
  · simp only [Bool.not_eq_true] at h
    simp only [h, Bool.false_eq_true, if_false]

theorem runLoop_empty {fns : List String} {dataRows : List (List String)}
    {p : CSVProcessor} (h : (processRows fns dataRows 2 p []).2.isEmpty = true) :
    runLoop fns dataRows p =
      ⟨false,
        { (processRows fns dataRows 2 p []).1 with
            errors := (processRows fns dataRows 2 p []).1.errors ++ ["No valid rows to process"] },
        (processRows fns dataRows 2 p []).2, none⟩ := by
  unfold runLoop
  rw [if_pos h]

theorem runLoop_nonempty {fns : List String} {dataRows : List (List String)}
    {p : CSVProcessor} (h : (processRows fns dataRows 2 p []).2.isEmpty = false) :
    runLoop fns dataRows p =
      ⟨true, (processRows fns dataRows 2 p []).1, (processRows fns dataRows 2 p []).2,
        some (writeOutput fns (processRows fns dataRows 2 p []).2)⟩ := by
  unfold runLoop
  rw [if_neg (by simp [h])]

/-- The returned boolean is exactly "some record was accepted". -/
theorem process_csv_ret_iff_accepted (fs : FS) (p : CSVProcessor) :
    (process_csv fs p).ret = true ↔ (process_csv fs p).accepted ≠ [] := by
  rw [process_csv_eq]
  by_cases hv : (validate_input fs p).1 = true
  · simp only [hv, if_true]
    cases hread : fs.read (validate_input fs p).2.input_file with
    | none =>
      rw [runBody_of_read_none hread]
      simp
    | some rows =>
      rw [runBody_of_read_some hread]
      cases hf : fieldnamesOf rows with
      | none =>
        rw [runWithRows_of_no_header hf]
        simp
      | some fns =>
        rw [runWithRows_of_header hf]
        cases he : (processRows fns (dataRowsOf (rows)) 2 (validate_input fs p).2 []).2.isEmpty with
        | false =>
          rw [runLoop_nonempty he]
          show true = true ↔ (processRows fns (dataRowsOf rows) 2 (validate_input fs p).2 []).2 ≠ []
          constructor
          · intro _ hnil
            rw [hnil] at he
            simp at he
          · intro _
            rfl
        | true =>
          rw [runLoop_empty he]
          show false = true ↔ (processRows fns (dataRowsOf rows) 2 (validate_input fs p).2 []).2 ≠ []
          constructor
          · intro hfalse
            exact absurd hfalse (by simp)
          · intro hne
            exact absurd (List.isEmpty_iff.mp he) hne
  · simp only [Bool.not_eq_true] at hv
    simp [hv]

/-- When a destination is written, its data rows are exactly the accepted
records written under the header, and every accepted record was produced by
the row transform. -/
theorem process_csv_written_inv {fs : FS} {p : CSVProcessor} {fns : List String}
    {drows : List (List String)}
    (h : (process_csv fs p).written = some (fns :: drows)) :
    drows = (process_csv fs p).accepted.map (writeRow fns) ∧
      ∀ r ∈ (process_csv fs p).accepted,
        ∃ cells m, (processRow (buildDict fns cells) m).record = some r := by
  rw [process_csv_eq] at h ⊢
  by_cases hv : (validate_input fs p).1 = true
  · simp only [hv, if_true] at h ⊢
    cases hread : fs.read (validate_input fs p).2.input_file with
    | none =>
      rw [runBody_of_read_none hread] at h
      exact absurd h (by simp)
    | some rows =>
      rw [runBody_of_read_some hread] at h ⊢
      cases hf : fieldnamesOf rows with
      | none =>
        rw [runWithRows_of_no_header hf] at h
        exact absurd h (by simp)
      | some fns0 =>
        rw [runWithRows_of_header hf] at h ⊢
        cases he : (processRows fns0 (dataRowsOf rows) 2 (validate_input fs p).2 []).2.isEmpty with
        | true =>
          rw [runLoop_empty he] at h
          exact absurd h (by simp)
        | false =>
          rw [runLoop_nonempty he] at h ⊢
          have hw : writeOutput fns0
              (processRows fns0 (dataRowsOf rows) 2 (validate_input fs p).2 []).2 =
              fns :: drows := by
            have : some (writeOutput fns0
                (processRows fns0 (dataRowsOf rows) 2 (validate_input fs p).2 []).2) =
                some (fns :: drows) := h
            injection this
          rw [writeOutput] at hw
          injection hw with hw1 hw2
          constructor
          · show drows =
              ((processRows fns0 (dataRowsOf rows) 2 (validate_input fs p).2 []).2).map
                (writeRow fns)
            rw [← hw2, ← hw1]
          · intro r hr
            rcases mem_processRows_accepted hr with hnil | hex
            · exact absurd hnil (by simp)
            · rw [← hw1]
              exact hex
  · simp only [Bool.not_eq_true] at hv
    simp only [hv, Bool.false_eq_true, if_false] at h
    exact absurd h (by simp)

/-- Re-parsing a written row accepts it and reproduces the record. -/
theorem reparse_writeRow {fns : List String} {r : TypedRecord} (m : Nat)
    (hacc : ∃ cells n0, (processRow (buildDict fns cells) n0).record = some r) :
    (processRow (buildDict fns (writeRow fns r)) m).record = some r := by
  obtain ⟨cells, n0, hrec⟩ := hacc
  obtain ⟨sid, sname, sval, hrs, hi, hname, hv, hneg⟩ := processRow_record_some hrec
  obtain ⟨hgid, hgname, hgval⟩ := requiredStrings_inr_iff.mp hrs
  obtain ⟨hlid, _⟩ := getReq_inr_iff.mp hgid
  obtain ⟨hlname, hsname⟩ := getReq_inr_iff.mp hgname
  obtain ⟨hlval, _⟩ := getReq_inr_iff.mp hgval
  have hmem_id : "id" ∈ fns := mem_of_lookupD_buildDict (by rw [hlid]; rfl)
  have hmem_name : "name" ∈ fns := mem_of_lookupD_buildDict (by rw [hlname]; rfl)
  have hmem_value : "value" ∈ fns := mem_of_lookupD_buildDict (by rw [hlval]; rfl)
  have hcell_id : writeCell r "id" = intToStr r.id := by simp [writeCell]
  have hcell_name : writeCell r "name" = r.name := by simp [writeCell]
  have hcell_value : writeCell r "value" = floatToStr r.value := by simp [writeCell]
  have hid' : lookupD (buildDict fns (writeRow fns r)) "id" = some (some (intToStr r.id)) := by
    rw [writeRow, lookupD_buildDict_map (writeCell r) hmem_id, hcell_id]
  have hname' : lookupD (buildDict fns (writeRow fns r)) "name" = some (some r.name) := by
    rw [writeRow, lookupD_buildDict_map (writeCell r) hmem_name, hcell_name]
  have hval' : lookupD (buildDict fns (writeRow fns r)) "value" =
      some (some (floatToStr r.value)) := by
    rw [writeRow, lookupD_buildDict_map (writeCell r) hmem_value, hcell_value]
  have hint_rt : pyIntParse (intToStr r.id) = some r.id := pyIntParse_intToStr r.id
  have hfloat_rt : pyFloatParse (floatToStr r.value) = some r.value :=
    pyFloatParse_floatToStr (pyFloatParse_isDecimal hv) (not_lt.mp hneg)
  have hstr : pyStrip r.name = r.name := by
    rw [hname]
    exact pyStrip_idem sname
  have hgid' : getReq (buildDict fns (writeRow fns r)) m "id" = Sum.inr (intToStr r.id) :=
    getReq_inr_iff.mpr ⟨hid', pyIntParse_strip_ne_empty hint_rt⟩
  have hgname' : getReq (buildDict fns (writeRow fns r)) m "name" = Sum.inr r.name :=
    getReq_inr_iff.mpr ⟨hname', by
      rw [hstr, hname]
      exact hsname⟩
  have hgval' : getReq (buildDict fns (writeRow fns r)) m "value" =
      Sum.inr (floatToStr r.value) :=
    getReq_inr_iff.mpr ⟨hval', pyFloatParse_strip_ne_empty hfloat_rt⟩
  have hrs' : requiredStrings (buildDict fns (writeRow fns r)) m =
      Sum.inr (intToStr r.id, r.name, floatToStr r.value) :=
    requiredStrings_inr_iff.mpr ⟨hgid', hgname', hgval'⟩
  rw [processRow_record_of_conds hrs' hint_rt hfloat_rt hneg]
  rw [hstr]

/-! ## The claims -/

/-- C1, counterexample: on the worked input of the design document one row is
accepted and three diagnostics are recorded, yet `process_csv` returns
`true` — contradicting the claim that `run()` returns true only when no
diagnostics were recorded (the spec even asserts `run()` returns false on
this very input). -/
theorem c1_counterexample :
    (process_csv exFS exProc).ret = true ∧
      (process_csv exFS exProc).state.errors ≠ [] := by
  with_unfolding_all decide

/-- C1, amended: `run()` (process_csv) returns true if and only if at least
one record was accepted, regardless of whether diagnostics were recorded. -/
theorem c1_run_true_iff_accepted (fs : FS) (inp out : String) :
    (process_csv fs (CSVProcessor.init inp out)).ret = true ↔
      (process_csv fs (CSVProcessor.init inp out)).accepted ≠ [] :=
  process_csv_ret_iff_accepted fs (CSVProcessor.init inp out)

/-- C2: a raw record is accepted by the row transform (a TypedRecord is
returned) iff its `id` parses as a base-10 integer, its `name` is non-empty
after trimming, and its `value` parses as a float whose value is ≥ 0. -/
theorem c2_accept_iff (d : Dict) (n : Nat) :
    (∃ r, (processRow d n).record = some r) ↔
      (∃ s, lookupD d "id" = some (some s) ∧ (pyIntParse s).isSome = true) ∧
      (∃ s, lookupD d "name" = some (some s) ∧ pyStrip s ≠ "") ∧
      (∃ s v, lookupD d "value" = some (some s) ∧ pyFloatParse s = some v ∧ 0 ≤ v) := by
  constructor
  · rintro ⟨r, hr⟩
    obtain ⟨sid, sname, sval, hrs, hi, hname, hv, hneg⟩ := processRow_record_some hr
    obtain ⟨hgid, hgname, hgval⟩ := requiredStrings_inr_iff.mp hrs
    obtain ⟨hlid, _⟩ := getReq_inr_iff.mp hgid
    obtain ⟨hlname, hsname⟩ := getReq_inr_iff.mp hgname
    obtain ⟨hlval, _⟩ := getReq_inr_iff.mp hgval
    exact ⟨⟨sid, hlid, by rw [hi]; rfl⟩, ⟨sname, hlname, hsname⟩,
      ⟨sval, r.value, hlval, hv, not_lt.mp hneg⟩⟩
  · rintro ⟨⟨sid, hlid, hpi⟩, ⟨sname, hlname, hsname⟩, ⟨sval, v, hlval, hpv, hvnn⟩⟩
    obtain ⟨i, hi⟩ := Option.isSome_iff_exists.mp hpi
    have hgid : getReq d n "id" = Sum.inr sid :=
      getReq_inr_iff.mpr ⟨hlid, pyIntParse_strip_ne_empty hi⟩
    have hgname : getReq d n "name" = Sum.inr sname :=
      getReq_inr_iff.mpr ⟨hlname, hsname⟩
    have hgval : getReq d n "value" = Sum.inr sval :=
      getReq_inr_iff.mpr ⟨hlval, pyFloatParse_strip_ne_empty hpv⟩
    have hrs := requiredStrings_inr_iff.mpr ⟨hgid, hgname, hgval⟩
    exact ⟨⟨i, pyStrip sname, v⟩,
      by rw [processRow_record_of_conds hrs hi hpv (not_lt.mpr hvnn)]⟩

/-- C3: `get_summary` reports success iff the diagnostics collection is
empty, and is a pure projection of the pipeline state (each summary field
equals the corresponding state field, so calling it cannot change the state
and repeated calls agree). -/
theorem c3_summary_pure (p : CSVProcessor) :
    ((get_summary p).success = true ↔ p.errors = []) ∧
    (get_summary p).errors = p.errors ∧
    (get_summary p).processed_rows = p.processed_rows ∧
    (get_summary p).input_file = p.input_file ∧
    (get_summary p).output_file = p.output_file := by
  refine ⟨?_, rfl, rfl, rfl, rfl⟩
  simp [get_summary, List.length_eq_zero]

/-- C4, counterexample: `validate_input` on a missing path is not
side-effect free — it appends a diagnostic to the instance's error list,
so the state is changed on the failure path. -/
theorem c4_counterexample :
    (validate_input emptyFS (CSVProcessor.init "in.csv" "out.csv")).2.errors ≠
      (CSVProcessor.init "in.csv" "out.csv").errors := by
  decide

/-- C4, amended: `validate_input` fails iff the path is missing or not a
regular file; on failure it appends exactly one diagnostic describing the
failure to the error list; on success it leaves the state unchanged. -/
theorem c4_validate_spec (fs : FS) (p : CSVProcessor) :
    (validate_input fs p).1 = (fs.pathExists p.input_file && fs.isFile p.input_file) ∧
    (validate_input fs p).2 =
      (if fs.pathExists p.input_file = false then
        { p with errors := p.errors ++ ["Input file not found: " ++ p.input_file] }
      else if fs.isFile p.input_file = false then
        { p with errors := p.errors ++ ["Input path is not a file: " ++ p.input_file] }
      else p) := by
  cases h1 : fs.pathExists p.input_file <;> cases h2 : fs.isFile p.input_file <;>
    simp [validate_input, h1, h2]

/-- C5: per processed row, the run records no diagnostic when the row is
accepted and exactly one diagnostic when it is not (the first failed check
short-circuits, and an exception also contributes exactly one). -/
theorem c5_diag_count (d : Dict) (n : Nat) :
    (rowDiagnostics (processRow d n) n).length =
      if (processRow d n).record.isSome = true then 0 else 1 := by
  cases hrs : requiredStrings d n with
  | inl iss =>
    cases iss with
    | missing diag => rw [processRow_of_missing hrs]; rfl
    | raise msg => rw [processRow_of_raise hrs]; rfl
  | inr t =>
    obtain ⟨sid, sname, sval⟩ := t
    rw [processRow_of_inr hrs]
    cases hi : pyIntParse sid with
    | none => rw [processConv_intErr hi]; rfl
    | some i =>
      cases hv : pyFloatParse sval with
      | none => rw [processConv_floatErr hi hv]; rfl
      | some v =>
        by_cases hneg : v < 0
        · rw [processConv_negErr hi hv hneg]; rfl
        · rw [processConv_ok hi hv hneg]; rfl

/-- C6: an exception raised while transforming a row is caught inside the
per-row loop, converted into the single diagnostic "Row n: cause", and
processing continues with the remaining rows; the loop (and hence the
caller) never sees the exception. -/
theorem c6_exception_caught (fns : List String) (cells : List String)
    (rest : List (List String)) (n : Nat) (p : CSVProcessor)
    (acc : List TypedRecord) (m : String)
    (h : processRow (buildDict fns cells) n = ⟨none, some m, []⟩) :
    processRows fns (cells :: rest) n p acc =
      processRows fns rest (n + 1)
        { p with errors := p.errors ++ ["Row " ++ toString n ++ ": " ++ m] } acc := by
  have hr : (processRow (buildDict fns cells) n).record = none := by rw [h]
  rw [processRows_cons_none rest p acc hr, h]
  simp [rowDiagnostics, rowExnDiags]

/-- C6, witness: a short row makes the transform raise the `NoneType`
attribute error, and the loop catches it and continues. -/
theorem c6_witness :
    processRow (buildDict exHeader ["7"]) 2 = ⟨none, some noneStripMsg, []⟩ ∧
    processRows exHeader [["7"]] 2 exProc [] =
      processRows exHeader [] 3
        { exProc with
            errors := exProc.errors ++ ["Row " ++ toString 2 ++ ": " ++ noneStripMsg] } [] :=
  ⟨by with_unfolding_all decide,
    c6_exception_caught exHeader ["7"] [] 2 exProc [] noneStripMsg
      (by with_unfolding_all decide)⟩

/-- C7: on a missing source path, a fresh run returns false, the diagnostics
collection holds exactly one entry and that entry names the path, and no
destination content is written. -/
theorem c7_missing_source (fs : FS) (inp out : String)
    (h : fs.pathExists inp = false) :
    (process_csv fs (CSVProcessor.init inp out)).ret = false ∧
    (process_csv fs (CSVProcessor.init inp out)).state.errors =
      ["Input file not found: " ++ inp] ∧
    (process_csv fs (CSVProcessor.init inp out)).written = none := by
  have hv : validate_input fs (CSVProcessor.init inp out) =
      (false, ⟨inp, out, 0, ["Input file not found: " ++ inp]⟩) := by
    simp [validate_input, CSVProcessor.init, h]
  rw [process_csv_eq, hv]
  exact ⟨rfl, rfl, rfl⟩

/-- C7, witness: the empty filesystem misses every path. -/
theorem c7_witness :
    emptyFS.pathExists "in.csv" = false ∧
    ((process_csv emptyFS (CSVProcessor.init "in.csv" "out.csv")).ret = false ∧
     (process_csv emptyFS (CSVProcessor.init "in.csv" "out.csv")).state.errors =
       ["Input file not found: " ++ "in.csv"] ∧
     (process_csv emptyFS (CSVProcessor.init "in.csv" "out.csv")).written = none) :=
  ⟨by with_unfolding_all decide,
    c7_missing_source emptyFS "in.csv" "out.csv" (by with_unfolding_all decide)⟩

/-- C8: two fresh runs over the same source, writing to two different
destination paths, return the same boolean and produce identical
destination content, diagnostics and accepted records — the pipeline is
deterministic in its input and never reads the destination path. -/
theorem c8_deterministic (fs : FS) (src d1 d2 : String) :
    (process_csv fs (CSVProcessor.init src d1)).written =
      (process_csv fs (CSVProcessor.init src d2)).written ∧
    (process_csv fs (CSVProcessor.init src d1)).state.errors =
      (process_csv fs (CSVProcessor.init src d2)).state.errors ∧
    (process_csv fs (CSVProcessor.init src d1)).ret =
      (process_csv fs (CSVProcessor.init src d2)).ret ∧
    (process_csv fs (CSVProcessor.init src d1)).accepted =
      (process_csv fs (CSVProcessor.init src d2)).accepted := by
  have h2 : process_csv fs (CSVProcessor.init src d2) =
      ⟨(process_csv fs (CSVProcessor.init src d1)).ret,
        { (process_csv fs (CSVProcessor.init src d1)).state with output_file := d2 },
        (process_csv fs (CSVProcessor.init src d1)).accepted,
        (process_csv fs (CSVProcessor.init src d1)).written⟩ :=
    process_csv_output_file fs (CSVProcessor.init src d1) d2
  rw [h2]
  exact ⟨rfl, rfl, rfl, rfl⟩

/-- C9: when a run writes a destination, its data rows are exactly the
accepted records serialized under the header, and re-reading any written
row through the same header/dictionary and row-transform logic accepts it
and reproduces a TypedRecord equal to the original. -/
theorem c9_roundtrip (fs : FS) (inp out : String) (fns : List String)
    (drows : List (List String)) (m : Nat)
    (h : (process_csv fs (CSVProcessor.init inp out)).written = some (fns :: drows)) :
    drows = (process_csv fs (CSVProcessor.init inp out)).accepted.map (writeRow fns) ∧
    ∀ r ∈ (process_csv fs (CSVProcessor.init inp out)).accepted,
      (processRow (buildDict fns (writeRow fns r)) m).record = some r := by
  obtain ⟨h1, h2⟩ := process_csv_written_inv h
  exact ⟨h1, fun r hr => reparse_writeRow m (h2 r hr)⟩

/-- C9, witness: the worked input writes one row, which round-trips. -/
theorem c9_witness :
    (process_csv exFS exProc).written =
      some (exHeader :: [["1", "Alice", "1050e-2"]]) ∧
    ([["1", "Alice", "1050e-2"]] =
        (process_csv exFS exProc).accepted.map (writeRow exHeader) ∧
      ∀ r ∈ (process_csv exFS exProc).accepted,
        (processRow (buildDict exHeader (writeRow exHeader r)) 2).record = some r) :=
  ⟨by with_unfolding_all decide,
    c9_roundtrip exFS "in.csv" "out.csv" exHeader [["1", "Alice", "1050e-2"]] 2
      (by with_unfolding_all decide)⟩

/-- C10: a data row with fewer cells than the header has columns leaves a
required field bound to the missing-cell marker `None`; trimming it raises,
the raise escapes `_process_row` without a "Missing required field"
diagnostic, and the per-row handler records the generic "Row n: ..."
diagnostic and continues with the next row. -/
theorem c10_short_row (fns : List String) (cells : List String)
    (rest : List (List String)) (n : Nat) (p : CSVProcessor)
    (acc : List TypedRecord)
    (_hshort : cells.length < fns.length)
    (hraise : requiredStrings (buildDict fns cells) n =
      Sum.inl (FieldIssue.raise noneStripMsg)) :
    processRow (buildDict fns cells) n = ⟨none, some noneStripMsg, []⟩ ∧
    processRows fns (cells :: rest) n p acc =
      processRows fns rest (n + 1)
        { p with
            errors := p.errors ++ ["Row " ++ toString n ++ ": " ++ noneStripMsg] } acc := by
  have h1 := processRow_of_raise hraise
  refine ⟨h1, ?_⟩
  have hr : (processRow (buildDict fns cells) n).record = none := by rw [h1]
  rw [processRows_cons_none rest p acc hr, h1]
  simp [rowDiagnostics, rowExnDiags]

/-- C10, witness: a one-cell row under the three-column header. -/
theorem c10_witness :
    processRow (buildDict exHeader ["1"]) 2 = ⟨none, some noneStripMsg, []⟩ ∧
    processRows exHeader [["1"]] 2 exProc [] =
      processRows exHeader [] 3
        { exProc with
            errors := exProc.errors ++ ["Row " ++ toString 2 ++ ": " ++ noneStripMsg] } [] :=
  c10_short_row exHeader ["1"] [] 2 exProc [] (by decide)
    (by with_unfolding_all decide)

end CSVProc
